import Mathlib

/-!
# Verification of the xlsx-data-cleaner batch scripts

Shallow embedding of the five data-cleaning scripts
(`analyze_categories.py`, `membership_assigner.py`, `name_formated.py`,
`product_normalizer.py`, `split_csv.py`) and proofs of the functional
properties stated in the repository's specification.

Modelling conventions:
* A pandas cell is `Option String`: `none` is a null/NaN cell, `some s` the
  string content of a non-null cell (the scripts apply `str(...)` before any
  string operation, so non-null cells are modelled by their string form).
* Python's `str.upper` / `str.lower` / `str.title` are modelled charwise over
  the character repertoire the scripts themselves manipulate: the ASCII
  alphabet plus the accented letters enumerated by `product_normalizer.py`'s
  own regular-expression letter class.  Characters outside this repertoire
  are treated as uncased, which matches Python on all inputs the scripts
  target.
* Loading a CSV with `pandas.read_csv` is modelled by the `Load` type:
  a file may be absent (`missing`), completely empty — zero bytes, no header
  row, which makes `read_csv` raise `EmptyDataError` (`noColumns`) — or it
  parses to a table, possibly with zero data rows (`ok`).
* A job's outcome is an `Option` of its written output: `none` models the
  `return False` / `sys.exit(1)` failure path, `some out` models the
  successful path that writes `out` and exits 0.  Printed progress and
  warning messages are outside the embedding.
-/

/-- Result of `pandas.read_csv` on an input path: the file is absent, the
file is completely empty (zero bytes: `read_csv` raises `EmptyDataError`,
caught by every script), or the file parses to a payload `t` — a table that
may well have zero data rows (a header-only file parses successfully to an
empty table; it does not raise `EmptyDataError`). -/
inductive Load (T : Type) where
  | missing : Load T
  | noColumns : Load T
  | ok (t : T) : Load T
deriving DecidableEq

namespace PyStr

/-- The (uppercase, lowercase) pairs of the character repertoire the scripts
manipulate: the ASCII alphabet plus the accented letters in
`product_normalizer.py`'s regex class `[A-Za-zÁÉÍÓÚÑÜáéíóúñü]`.  Python's
`str.upper`/`str.lower`/`str.title` are modelled charwise over this table. -/
def caseTable : List (Char × Char) :=
  [('A', 'a'), ('B', 'b'), ('C', 'c'), ('D', 'd'), ('E', 'e'), ('F', 'f'),
   ('G', 'g'), ('H', 'h'), ('I', 'i'), ('J', 'j'), ('K', 'k'), ('L', 'l'),
   ('M', 'm'), ('N', 'n'), ('O', 'o'), ('P', 'p'), ('Q', 'q'), ('R', 'r'),
   ('S', 's'), ('T', 't'), ('U', 'u'), ('V', 'v'), ('W', 'w'), ('X', 'x'),
   ('Y', 'y'), ('Z', 'z'),
   ('Á', 'á'), ('É', 'é'), ('Í', 'í'), ('Ó', 'ó'), ('Ú', 'ú'), ('Ñ', 'ñ'),
   ('Ü', 'ü')]

/-- Model of Python `str.upper` on one character. -/
def pyToUpper (c : Char) : Char :=
  match caseTable.find? (fun p => p.2 == c) with
  | some p => p.1
  | none => c

/-- Model of Python `str.lower` on one character. -/
def pyToLower (c : Char) : Char :=
  match caseTable.find? (fun p => p.1 == c) with
  | some p => p.2
  | none => c

/-- A cased character (one that `str.title` treats as part of a word). -/
def pyIsCased (c : Char) : Bool :=
  caseTable.any (fun p => p.1 == c || p.2 == c)

/-- Model of Python `str.isspace` on one character: ASCII whitespace plus
vertical tab and form feed. -/
def pyIsSpace (c : Char) : Bool :=
  c.isWhitespace || c == Char.ofNat 11 || c == Char.ofNat 12

/-- Predicate `isBlank s` models `str(v).strip() == ""`: every character of `s` is
whitespace (in particular `isBlank "" = true`). -/
def isBlank (s : String) : Bool :=
  s.toList.all pyIsSpace

/-- Model of Python `str.title` on a character list.  The flag records
whether the previous character was cased: a cased character following an
uncased one (or the start) is uppercased, a cased character following a
cased one is lowercased, uncased characters pass through. -/
def titleAux : List Char → Bool → List Char
  | [], _ => []
  | c :: cs, prevCased =>
    (if pyIsCased c then
       (if prevCased then pyToLower c else pyToUpper c)
     else c) :: titleAux cs (pyIsCased c)

/-- Model of Python `str.title`. -/
def pyTitle (s : String) : String :=
  String.mk (titleAux s.toList false)

/-- Model of Python `str.find` for a substring over character lists:
`some i` is the least index at which `tok` occurs in `cs`, `none` means no
occurrence (Python's `-1`). -/
def findSub (tok : List Char) : List Char → Option Nat
  | [] => if tok = [] then some 0 else none
  | c :: rest =>
    if (c :: rest).take tok.length = tok then some 0
    else (findSub tok rest).map (· + 1)

/-- Model of Python `str.rstrip(seps)`: remove trailing characters that
belong to `seps`. -/
def rstripChars (seps : List Char) (cs : List Char) : List Char :=
  (cs.reverse.dropWhile (fun c => seps.contains c)).reverse

/-- Model of Python `str.strip()` with no argument: remove leading and
trailing whitespace. -/
def pyStrip (s : String) : String :=
  String.mk (((s.toList.dropWhile pyIsSpace).reverse.dropWhile pyIsSpace).reverse)

end PyStr

namespace ProductNormalizer

/-- Configuration constant `DEFAULT_CODE_TOKEN` of `product_normalizer.py`. -/
def DEFAULT_CODE_TOKEN : String := "PRO"

/-- The separator set of `text.rstrip(" -_#:/")` in
`strip_default_code_suffix`. -/
def sepChars : List Char := [' ', '-', '_', '#', ':', '/']

/-- The regex letter class `[A-Za-zÁÉÍÓÚÑÜáéíóúñü]` used by
`is_all_uppercase`. -/
def isRegexLetter (c : Char) : Bool :=
  (('A' ≤ c && c ≤ 'Z') || ('a' ≤ c && c ≤ 'z')) ||
    ['Á', 'É', 'Í', 'Ó', 'Ú', 'Ñ', 'Ü', 'á', 'é', 'í', 'ó', 'ú', 'ñ', 'ü'].contains c

/-- Model of Python `text.upper()` on a whole string. -/
def pyUpperStr (s : String) : String :=
  String.mk (s.toList.map PyStr.pyToUpper)

/-- Function `is_all_uppercase` from `product_normalizer.py`: the text has at least
one letter of the regex class and equals its own uppercasing. -/
def is_all_uppercase (s : String) : Bool :=
  s.toList.any isRegexLetter && (s == pyUpperStr s)

/-- Function `normalize_name_to_title` from `product_normalizer.py`: null and empty
values pass through; an all-uppercase text is title-cased; anything else is
returned unchanged. -/
def normalize_name_to_title : Option String → Option String
  | none => none
  | some s =>
    if s = "" then some s
    else if is_all_uppercase s then some (PyStr.pyTitle s) else some s

/-- Function `strip_default_code_suffix` from `product_normalizer.py`: null passes
through; otherwise the text is truncated at the first occurrence of
`DEFAULT_CODE_TOKEN` (if any) and then — unconditionally — stripped of
trailing separator characters. -/
def strip_default_code_suffix : Option String → Option String
  | none => none
  | some s =>
    let cs := s.toList
    let cut :=
      match PyStr.findSub DEFAULT_CODE_TOKEN.toList cs with
      | some i => cs.take i
      | none => cs
    some (String.mk (PyStr.rstripChars sepChars cut))

/-- A table, column-oriented: (column name, column values) in header order;
a cell is `none` for NaN, `some s` for the value with `str` form `s`. -/
def PTable : Type := List (String × List (Option String))
deriving instance DecidableEq for PTable

/-- Configuration constant `COL_PRODUCT_NAME` of `product_normalizer.py`. -/
def COL_PRODUCT_NAME : String := "name"

/-- Configuration constant `COL_ROOT_PATH` of `product_normalizer.py`. -/
def COL_ROOT_PATH : String := "categ_id"

/-- Configuration constant `COL_TAGS` of `product_normalizer.py`. -/
def COL_TAGS : String := "product_tag_ids"

/-- Configuration constant `COL_DEFAULT_CODE` of `product_normalizer.py`. -/
def COL_DEFAULT_CODE : String := "default_code"

/-- Configuration constant `ROOT_NAME` of `product_normalizer.py`. -/
def ROOT_NAME : String := "All /"

/-- Configuration constant `TAG_TO_ASSIGN` of `product_normalizer.py`. -/
def TAG_TO_ASSIGN : String := "Embassy Store"

/-- Model of Python `text.lower()` on a whole string. -/
def pyLowerStr (s : String) : String :=
  String.mk (s.toList.map PyStr.pyToLower)

/-- Model of Python `a.startswith(b)`. -/
def pyStartsWith (b s : String) : Bool :=
  b.toList.isPrefixOf s.toList

/-- Function `root_is_all` from `product_normalizer.py`: null is not a
root match; otherwise the stripped value, lowercased, must start with the
lowercased `ROOT_NAME`. -/
def root_is_all : Option String → Bool
  | none => false
  | some s => pyStartsWith (pyLowerStr ROOT_NAME) (pyLowerStr (PyStr.pyStrip s))

/-- Rule step 1 of `process_products`: when the product-name column is in
`df.columns`, apply `normalize_name_to_title` over it; otherwise the step
is a warned no-op. -/
def normalizeNameColumn (t : PTable) : PTable :=
  if t.any (fun p => p.1 == COL_PRODUCT_NAME) then
    t.map (fun p =>
      if p.1 == COL_PRODUCT_NAME then (p.1, p.2.map normalize_name_to_title) else p)
  else t

/-- Rule step 2 of `process_products`: when the root-path column is in
`df.columns`, compute the `root_is_all` mask over it, create the tag
column filled with `""` if it does not yet exist, and overwrite the tag
cells at masked positions with `TAG_TO_ASSIGN`; otherwise the step is a
warned no-op. -/
def assignRootTag (t : PTable) : PTable :=
  if t.any (fun p => p.1 == COL_ROOT_PATH) then
    let rootVals := ((t.find? (fun p => p.1 == COL_ROOT_PATH)).map (fun p => p.2)).getD []
    let mask := rootVals.map root_is_all
    let t1 := if t.any (fun p => p.1 == COL_TAGS) then t
              else List.append t [(COL_TAGS, List.replicate rootVals.length (some ""))]
    t1.map (fun p =>
      if p.1 == COL_TAGS then
        (p.1, List.zipWith (fun m v => if m then some TAG_TO_ASSIGN else v) mask p.2)
      else p)
  else t

/-- Rule step 3 of `process_products`: when the product-code column is in
`df.columns`, apply `strip_default_code_suffix` over it; otherwise the
step is a warned no-op. -/
def stripCodeColumn (t : PTable) : PTable :=
  if t.any (fun p => p.1 == COL_DEFAULT_CODE) then
    t.map (fun p =>
      if p.1 == COL_DEFAULT_CODE then (p.1, p.2.map strip_default_code_suffix) else p)
  else t

/-- Function `process_products` from `product_normalizer.py`: a missing
file and a zero-byte file (`EmptyDataError`) fail; any parsed table is
passed through the three rule steps in fixed order and written out. -/
def process_products : Load PTable → Option PTable
  | Load.missing => none
  | Load.noColumns => none
  | Load.ok t => some (stripCodeColumn (assignRootTag (normalizeNameColumn t)))

end ProductNormalizer

namespace NameFormated

/-- A table cell: `none` is NaN, `some s` a non-null value (its `str` form). -/
def NCell : Type := Option String
deriving instance DecidableEq for NCell

/-- A table, column-oriented as `name_formated.py` accesses it: a list of
(column name, column values) in header order. -/
def NTable : Type := List (String × List NCell)
deriving instance DecidableEq for NTable

/-- Configuration constant `COLUMNS_TO_FORMAT` of `name_formated.py`. -/
def COLUMNS_TO_FORMAT : List String :=
  ["Last Name", "First Name", "Spouse Name", "Child 1", "Child 2", "Child 3"]

/-- Function `format_to_title_case` from `name_formated.py`: null (`pd.isna`) and
empty values pass through unchanged; any other value is replaced by its
Python `str.title()` form. -/
def format_to_title_case : Option String → Option String
  | none => none
  | some s => if s = "" then some s else some (PyStr.pyTitle s)

/-- One iteration of the formatting loop of `process_csv_to_xlsx`: if
`col` is among the table's columns, map `format_to_title_case` over that
column; otherwise the table is left untouched (the script prints a warning
and continues). -/
def formatColumn (t : NTable) (col : String) : NTable :=
  if t.any (fun p => p.1 == col) then
    t.map (fun p =>
      if p.1 == col then (p.1, p.2.map format_to_title_case) else p)
  else t

/-- Function `process_csv_to_xlsx` from `name_formated.py`: a missing file and a
zero-byte file (`EmptyDataError`) fail; any parsed table — including one
with zero data rows — is formatted column by column and written out. -/
def process_csv_to_xlsx : Load NTable → Option NTable
  | Load.missing => none
  | Load.noColumns => none
  | Load.ok t => some (COLUMNS_TO_FORMAT.foldl formatColumn t)

/-- The specification's example input: the string `jOHN o`&`brien` with an
apostrophe (codepoint 39) between `o` and `brien`. -/
def exampleNameIn : String :=
  String.mk ['j', 'O', 'H', 'N', ' ', 'o', Char.ofNat 39, 'b', 'r', 'i', 'e', 'n']

/-- The specification's expected output for `exampleNameIn`: `John O`&`Brien`
with an apostrophe (codepoint 39) between `O` and `Brien`. -/
def exampleNameOut : String :=
  String.mk ['J', 'o', 'h', 'n', ' ', 'O', Char.ofNat 39, 'B', 'r', 'i', 'e', 'n']

end NameFormated

namespace MembershipAssigner

/-- A row as produced by `df.iterrows()`: (column name, cell) pairs in
header order; a cell is `none` for NaN, `some s` for the value `v` with
`str(v) = s`. -/
def MRow : Type := List (String × Option String)
deriving instance DecidableEq for MRow

/-- Configuration constant `FAMILY_INDICATOR_COLUMNS`. -/
def FAMILY_INDICATOR_COLUMNS : List String :=
  ["Spouse Name", "Child 1", "Child 2", "Child 3"]

/-- Configuration constant `INDIVIDUAL_LABEL`. -/
def INDIVIDUAL_LABEL : String := "Individual"

/-- Configuration constant `FAMILY_LABEL`. -/
def FAMILY_LABEL : String := "Family"

/-- Configuration constant `INDIVIDUAL_PRICE`. -/
def INDIVIDUAL_PRICE : Int := 50

/-- Configuration constant `FAMILY_PRICE`. -/
def FAMILY_PRICE : Int := 80

/-- Model of `row[column]` guarded by `column in row.index`: `none` when the column
is absent from the row, `some cell` otherwise. -/
def rowGet (row : MRow) (col : String) : Option (Option String) :=
  (row.find? (fun p => p.1 == col)).map (fun p => p.2)

/-- Function `has_any_family_value` from `membership_assigner.py`: true when some
listed column is present in the row and holds a non-null value whose
stripped string form is non-empty.  The source's early-return loop is
modelled by `List.any`. -/
def has_any_family_value (row : MRow) (columns : List String) : Bool :=
  columns.any (fun col =>
    match rowGet row col with
    | some (some v) => ! PyStr.isBlank v
    | some none => false
    | none => false)

/-- Function `assign_membership` from `membership_assigner.py`. -/
def assign_membership (row : MRow) : String × Int :=
  if has_any_family_value row FAMILY_INDICATOR_COLUMNS then
    (FAMILY_LABEL, FAMILY_PRICE)
  else (INDIVIDUAL_LABEL, INDIVIDUAL_PRICE)

/-- Function `process_file` from `membership_assigner.py`: a missing file and a
zero-byte file fail; any parsed table — including one with zero data
rows — is processed: the per-row membership types and prices are computed
and the extended table is written.  The output is modelled as the original
rows together with the two appended columns (the `types` and `prices`
lists the script builds and assigns to the dataframe). -/
def process_file : Load (List MRow) → Option (List MRow × List String × List Int)
  | Load.missing => none
  | Load.noColumns => none
  | Load.ok rows =>
    some (rows,
          rows.map (fun r => (assign_membership r).1),
          rows.map (fun r => (assign_membership r).2))

end MembershipAssigner

namespace AnalyzeCategories

/-- A table, column-oriented: (column name, column values) in header order;
a cell is `none` for NaN, `some s` for the string value `s`. -/
def ATable : Type := List (String × List (Option String))
deriving instance DecidableEq for ATable

/-- Configuration constant `COLUMN_TO_ANALYZE` of `analyze_categories.py`. -/
def COLUMN_TO_ANALYZE : String := "Company"

/-- Model of `df[column]` guarded by `column in df.columns`: the column's values, or
`none` when the column is absent. -/
def colGet (t : ATable) (col : String) : Option (List (Option String)) :=
  (t.find? (fun p => p.1 == col)).map (fun p => p.2)

/-- The cleaning pipeline of `analyze_categories.py`: `dropna()`, then drop
values equal to `""`, then drop values whose `str.strip()` is `""`. -/
def cleanColumn (values : List (Option String)) : List String :=
  ((values.filterMap id).filter (fun s => ! (s == ""))).filter
    (fun s => ! PyStr.isBlank s)

/-- The tally `Counter(clean_data)` as a (value, count) list over the
distinct values, counted by exact string equality (case- and
whitespace-sensitive). -/
def categoryCounts (clean : List String) : List (String × Nat) :=
  clean.dedup.map (fun v => (v, clean.count v))

/-- Stable descending insertion by count, used to model the sort performed
by `Counter.most_common()`. -/
def insertDesc (p : String × Nat) : List (String × Nat) → List (String × Nat)
  | [] => [p]
  | q :: qs => if q.2 < p.2 then p :: q :: qs else q :: insertDesc p qs

/-- Stable sort by descending count. -/
def sortDesc : List (String × Nat) → List (String × Nat)
  | [] => []
  | p :: ps => insertDesc p (sortDesc ps)

/-- Model of `Counter.most_common()`: the tally sorted by descending count, ties in
tally order.  (`Counter` enumerates distinct values in first-insertion
order, `dedup` may enumerate them differently; every property stated below
is invariant under this permutation.) -/
def most_common (clean : List String) : List (String × Nat) :=
  sortDesc (categoryCounts clean)

/-- Python `round(q, 2)` over the rationals. -/
def round2 (q : ℚ) : ℚ :=
  ((round (q * 100) : ℤ) : ℚ) / 100

/-- Function `analyze_categories` from `analyze_categories.py`.  A missing file and a
zero-byte file fail; a table without the target column fails (the script
prints an error and returns `False`); otherwise the cleaned column is
tallied and the (Category, Count, Percentage) result table is exported.
When no valid value remains the script fails before exporting anything
(`category_counts.most_common(1)[0]` raises `IndexError`, caught by the
top-level handler, which returns `False`). -/
def analyze_categories (file : Load ATable) (column : String) :
    Option (List (String × Nat × ℚ)) :=
  match file with
  | Load.missing => none
  | Load.noColumns => none
  | Load.ok t =>
    match colGet t column with
    | none => none
    | some values =>
      let clean := cleanColumn values
      if clean.length = 0 then none
      else
        some ((most_common clean).map (fun p =>
          (p.1, p.2, round2 ((p.2 : ℚ) / (clean.length : ℚ) * 100))))

end AnalyzeCategories

namespace SplitCsv

/-- Ceiling division `math.ceil(total_rows / rows_per_file)` for naturals (`rows_per_file`
positive). -/
def numFiles (totalRows rowsPerFile : Nat) : Nat :=
  (totalRows + rowsPerFile - 1) / rowsPerFile

/-- The chunking loop of `split_csv`: chunk `i` is
`df.iloc[i*k : min(i*k + k, n)]`, for `i` ranging over the number of
files. -/
def splitChunks {R : Type} (rows : List R) (k : Nat) : List (List R) :=
  (List.range (numFiles rows.length k)).map
    (fun i => (rows.drop (i * k)).take k)

/-- Function `split_csv` from `split_csv.py`: a non-positive `rows_per_file` fails
before the input file is even examined; a missing file and a zero-byte
file fail; a parsed table with zero rows succeeds writing no chunk files;
otherwise the chunk files are written.  The successful output is the list
of written chunks. -/
def split_csv {R : Type} (rowsPerFile : Int) (file : Load (List R)) :
    Option (List (List R)) :=
  if rowsPerFile ≤ 0 then none
  else
    match file with
    | Load.missing => none
    | Load.noColumns => none
    | Load.ok rows =>
      if rows.length = 0 then some []
      else some (splitChunks rows rowsPerFile.toNat)

end SplitCsv

/-! ## Lemmas about the Python string model -/

namespace PyStr

theorem caseTable_props : ∀ p ∈ caseTable,
    pyToUpper p.1 = p.1 ∧ pyToLower p.2 = p.2 ∧ pyToLower p.1 = p.2 ∧
      pyToUpper p.2 = p.1 ∧ pyIsCased p.1 = true ∧ pyIsCased p.2 = true := by
  decide

theorem pyToLower_of_find? {c : Char} {p : Char × Char}
    (h : caseTable.find? (fun q => q.1 == c) = some p) : pyToLower c = p.2 := by
  unfold pyToLower
  rw [h]

theorem pyToLower_of_find?_none {c : Char}
    (h : caseTable.find? (fun q => q.1 == c) = none) : pyToLower c = c := by
  unfold pyToLower
  rw [h]

theorem pyToUpper_of_find? {c : Char} {p : Char × Char}
    (h : caseTable.find? (fun q => q.2 == c) = some p) : pyToUpper c = p.1 := by
  unfold pyToUpper
  rw [h]

theorem pyToUpper_of_find?_none {c : Char}
    (h : caseTable.find? (fun q => q.2 == c) = none) : pyToUpper c = c := by
  unfold pyToUpper
  rw [h]

theorem pyToLower_pyToLower (c : Char) : pyToLower (pyToLower c) = pyToLower c := by
  cases h : caseTable.find? (fun q => q.1 == c) with
  | none => rw [pyToLower_of_find?_none h, pyToLower_of_find?_none h]
  | some p =>
    rw [pyToLower_of_find? h]
    exact (caseTable_props p (List.mem_of_find?_eq_some h)).2.1

theorem pyToUpper_pyToUpper (c : Char) : pyToUpper (pyToUpper c) = pyToUpper c := by
  cases h : caseTable.find? (fun q => q.2 == c) with
  | none => rw [pyToUpper_of_find?_none h, pyToUpper_of_find?_none h]
  | some p =>
    rw [pyToUpper_of_find? h]
    exact (caseTable_props p (List.mem_of_find?_eq_some h)).1

theorem pyIsCased_pyToUpper (c : Char) : pyIsCased (pyToUpper c) = pyIsCased c := by
  cases h : caseTable.find? (fun q => q.2 == c) with
  | none => rw [pyToUpper_of_find?_none h]
  | some p =>
    rw [pyToUpper_of_find? h]
    have hmem := List.mem_of_find?_eq_some h
    have hc : p.2 = c := by
      have := List.find?_some h
      exact eq_of_beq this
    rw [← hc]
    rw [(caseTable_props p hmem).2.2.2.2.1, (caseTable_props p hmem).2.2.2.2.2]

theorem pyIsCased_pyToLower (c : Char) : pyIsCased (pyToLower c) = pyIsCased c := by
  cases h : caseTable.find? (fun q => q.1 == c) with
  | none => rw [pyToLower_of_find?_none h]
  | some p =>
    rw [pyToLower_of_find? h]
    have hmem := List.mem_of_find?_eq_some h
    have hc : p.1 = c := by
      have := List.find?_some h
      exact eq_of_beq this
    rw [← hc]
    rw [(caseTable_props p hmem).2.2.2.2.1, (caseTable_props p hmem).2.2.2.2.2]

theorem pyIsCased_of_pyIsSpace {c : Char} (h : pyIsSpace c = true) :
    pyIsCased c = false := by
  have : c = ' ' ∨ c = Char.ofNat 9 ∨ c = Char.ofNat 13 ∨ c = Char.ofNat 10 ∨
      c = Char.ofNat 11 ∨ c = Char.ofNat 12 := by
    simp only [pyIsSpace, Char.isWhitespace, Bool.or_eq_true, decide_eq_true_eq,
      beq_iff_eq] at h
    tauto
  rcases this with h | h | h | h | h | h <;> subst h <;> decide

theorem titleAux_length (cs : List Char) (flag : Bool) :
    (titleAux cs flag).length = cs.length := by
  induction cs generalizing flag with
  | nil => rfl
  | cons c cs ih => simp [titleAux, ih]

theorem titleAux_idem (cs : List Char) (flag : Bool) :
    titleAux (titleAux cs flag) flag = titleAux cs flag := by
  induction cs generalizing flag with
  | nil => rfl
  | cons c cs ih =>
    by_cases hc : pyIsCased c = true
    · cases flag with
      | false =>
        simp [titleAux, hc, pyIsCased_pyToUpper, pyToUpper_pyToUpper, ih]
      | true =>
        simp [titleAux, hc, pyIsCased_pyToLower, pyToLower_pyToLower, ih]
    · simp [titleAux, hc, ih]

/-- Positional characterization of the `str.title` model: the character at
position `i` of the output is the input character uppercased when it is
cased and follows an uncased position (or starts the string with the flag
clear), lowercased when it is cased and follows a cased position, and
unchanged when it is uncased. -/
theorem titleAux_get (cs : List Char) (flag : Bool) (i : Nat)
    (h : i < cs.length) (h2 : i < (titleAux cs flag).length) :
    (titleAux cs flag).get ⟨i, h2⟩ =
      if pyIsCased (cs.get ⟨i, h⟩) = true then
        (if (if i = 0 then flag
             else pyIsCased (cs.get ⟨i - 1, Nat.lt_of_le_of_lt (Nat.sub_le i 1) h⟩)) = true
         then pyToLower (cs.get ⟨i, h⟩)
         else pyToUpper (cs.get ⟨i, h⟩))
      else cs.get ⟨i, h⟩ := by
  induction cs generalizing flag i with
  | nil => exact absurd h (Nat.not_lt_zero i)
  | cons c cs ih =>
    cases i with
    | zero => simp [titleAux]
    | succ j =>
      have hj : j < cs.length := by simpa using h
      have hj2 : j < (titleAux cs (pyIsCased c)).length := by
        rw [titleAux_length]; exact hj
      have lhs : (titleAux (c :: cs) flag).get ⟨j + 1, h2⟩ =
          (titleAux cs (pyIsCased c)).get ⟨j, hj2⟩ := by
        simp [titleAux]
      rw [lhs, ih (pyIsCased c) j hj hj2]
      cases j with
      | zero => simp
      | succ k => simp

theorem findSub_some_first (tok : List Char) : ∀ (cs : List Char) (i : Nat),
    findSub tok cs = some i →
    (cs.drop i).take tok.length = tok ∧
      ∀ j, j < i → (cs.drop j).take tok.length ≠ tok := by
  intro cs
  induction cs with
  | nil =>
    intro i h
    by_cases htok : tok = []
    · simp only [findSub, if_pos htok, Option.some.injEq] at h
      subst h
      refine ⟨by simp [htok], ?_⟩
      intro j hj
      exact absurd hj (Nat.not_lt_zero j)
    · simp [findSub, htok] at h
  | cons c cs ih =>
    intro i h
    unfold findSub at h
    by_cases hpre : (c :: cs).take tok.length = tok
    · rw [if_pos hpre] at h
      cases h
      refine ⟨by simpa using hpre, ?_⟩
      intro j hj
      exact absurd hj (Nat.not_lt_zero j)
    · rw [if_neg hpre] at h
      obtain ⟨a, ha, hai⟩ := Option.map_eq_some'.mp h
      obtain ⟨h1, h2⟩ := ih a ha
      subst hai
      constructor
      · simpa [List.drop_succ_cons] using h1
      · intro j hj
        cases j with
        | zero => simpa using hpre
        | succ j => simpa [List.drop_succ_cons] using h2 j (by omega)

theorem findSub_none_all (tok : List Char) : ∀ (cs : List Char),
    findSub tok cs = none → ∀ j, (cs.drop j).take tok.length ≠ tok := by
  intro cs
  induction cs with
  | nil =>
    intro h j
    by_cases htok : tok = []
    · simp [findSub, htok] at h
    · simp only [List.drop_nil, List.take_nil]
      exact Ne.symm htok
  | cons c cs ih =>
    intro h j
    unfold findSub at h
    by_cases hpre : (c :: cs).take tok.length = tok
    · rw [if_pos hpre] at h
      cases h
    · rw [if_neg hpre] at h
      cases j with
      | zero => simpa using hpre
      | succ j =>
        have := ih (Option.map_eq_none'.mp h) j
        simpa [List.drop_succ_cons] using this

theorem findSub_eq_some_of_first (tok cs : List Char) (i : Nat)
    (hocc : (cs.drop i).take tok.length = tok)
    (hmin : ∀ j, j < i → (cs.drop j).take tok.length ≠ tok) :
    findSub tok cs = some i := by
  cases h : findSub tok cs with
  | none => exact absurd hocc (findSub_none_all tok cs h i)
  | some a =>
    obtain ⟨h1, h2⟩ := findSub_some_first tok cs a h
    have : a = i := by
      rcases Nat.lt_trichotomy a i with hlt | heq | hgt
      · exact absurd h1 (hmin a hlt)
      · exact heq
      · exact absurd hocc (h2 i hgt)
    rw [this]

theorem string_eq_empty_iff (s : String) : s = "" ↔ s.toList = [] := by
  constructor
  · intro h
    rw [h]
    rfl
  · intro h
    exact String.ext h

theorem pyTitle_toList (s : String) : (pyTitle s).toList = titleAux s.toList false :=
  rfl

theorem pyTitle_ne_empty {s : String} (h : s ≠ "") : pyTitle s ≠ "" := by
  intro he
  apply h
  rw [string_eq_empty_iff] at he ⊢
  rw [pyTitle_toList] at he
  have hlen := titleAux_length s.toList false
  rw [he] at hlen
  exact List.length_eq_zero.mp (Eq.symm hlen)

theorem pyTitle_idem (s : String) : pyTitle (pyTitle s) = pyTitle s := by
  unfold pyTitle
  rw [show (String.mk (titleAux s.toList false)).toList = titleAux s.toList false from rfl]
  rw [titleAux_idem]

end PyStr

/-- A map leaves a list unchanged exactly when it fixes every element. -/
theorem list_map_fix_iff {α : Type} (f : α → α) (l : List α) :
    l.map f = l ↔ ∀ x ∈ l, f x = x := by
  induction l with
  | nil => simp
  | cons a l ih =>
    simp only [List.map_cons, List.cons.injEq, List.mem_cons]
    constructor
    · rintro ⟨h1, h2⟩ x (rfl | hx)
      · exact h1
      · exact (ih.mp h2) x hx
    · intro h
      exact ⟨h a (Or.inl rfl), ih.mpr (fun x hx => h x (Or.inr hx))⟩

/-! ## Claim theorems -/

/-- C9 (confirmed): the Name Formatter's value transform is idempotent —
`format_to_title_case (format_to_title_case x) = format_to_title_case x`
for every cell value `x`, so re-running the job on its own output leaves
the formatted columns unchanged. -/
theorem C9_name_formatter_idempotent (x : Option String) :
    NameFormated.format_to_title_case (NameFormated.format_to_title_case x) =
      NameFormated.format_to_title_case x := by
  cases x with
  | none => rfl
  | some s =>
    by_cases hs : s = ""
    · subst hs
      rfl
    · have h1 : NameFormated.format_to_title_case (some s) = some (PyStr.pyTitle s) := by
        simp [NameFormated.format_to_title_case, hs]
      rw [h1]
      simp [NameFormated.format_to_title_case, PyStr.pyTitle_ne_empty hs,
        PyStr.pyTitle_idem]

/-- C8 (confirmed): `normalize_name_to_title` converts a value all of whose
characters are fixed by uppercasing and that contains at least one letter
of the script's letter class (in particular any value consisting entirely
of uppercase letters) to title case; a value containing a lowercase letter
passes through unchanged; null and empty values pass through unchanged. -/
theorem C8_product_name_casing (s : String) :
    (s ≠ "" → (∀ c ∈ s.toList, PyStr.pyToUpper c = c) →
      (∃ c ∈ s.toList, ProductNormalizer.isRegexLetter c = true) →
      ProductNormalizer.normalize_name_to_title (some s) = some (PyStr.pyTitle s))
    ∧ ((∃ c ∈ s.toList, ProductNormalizer.isRegexLetter c = true ∧
          PyStr.pyToUpper c ≠ c) →
      ProductNormalizer.normalize_name_to_title (some s) = some s)
    ∧ ProductNormalizer.normalize_name_to_title none = none
    ∧ ProductNormalizer.normalize_name_to_title (some "") = some "" := by
  refine ⟨?_, ?_, rfl, rfl⟩
  · intro hne hall hex
    have hup : ProductNormalizer.pyUpperStr s = s := by
      unfold ProductNormalizer.pyUpperStr
      rw [(list_map_fix_iff PyStr.pyToUpper s.toList).mpr hall]
      rfl
    have hA : ProductNormalizer.is_all_uppercase s = true := by
      unfold ProductNormalizer.is_all_uppercase
      rw [hup]
      simp only [beq_self_eq_true, Bool.and_true, List.any_eq_true]
      exact hex
    simp [ProductNormalizer.normalize_name_to_title, hne, hA]
  · rintro ⟨c, hc, _, hlc⟩
    have hne2 : (s == ProductNormalizer.pyUpperStr s) = false := by
      rw [beq_eq_false_iff_ne]
      intro he
      have hmap : s.toList.map PyStr.pyToUpper = s.toList := by
        have := congrArg String.toList he
        exact (this.symm : (ProductNormalizer.pyUpperStr s).toList = s.toList)
      exact hlc ((list_map_fix_iff PyStr.pyToUpper s.toList).mp hmap c hc)
    have hA : ProductNormalizer.is_all_uppercase s = false := by
      unfold ProductNormalizer.is_all_uppercase
      rw [hne2, Bool.and_false]
    by_cases hs : s = "" <;>
      simp [ProductNormalizer.normalize_name_to_title, hs, hA]

/-- C8 witness: `"NIKE AIR MAX"` (all letters uppercase) is converted to
`"Nike Air Max"`, and the mixed-case `"Nike Air Max"` passes through
unchanged, both via `C8_product_name_casing`. -/
theorem C8_product_name_casing_witness :
    ProductNormalizer.normalize_name_to_title (some "NIKE AIR MAX") = some "Nike Air Max"
    ∧ ProductNormalizer.normalize_name_to_title (some "Nike Air Max")
        = some "Nike Air Max" := by
  constructor
  · have h := (C8_product_name_casing "NIKE AIR MAX").1 (by decide) (by decide) (by decide)
    rw [h]
    decide
  · exact (C8_product_name_casing "Nike Air Max").2.1 ⟨'i', by decide, by decide, by decide⟩

/-- C1 counterexample: on the value `"ABC-"` the token `"PRO"` does not
occur (`str.find` returns `-1`, modelled by `findSub = none`), yet the
result is `"ABC"`, not the unchanged input `"ABC-"`: the trailing-separator
strip is applied even when the token is absent. -/
theorem C1_code_truncation_counterexample :
    PyStr.findSub ProductNormalizer.DEFAULT_CODE_TOKEN.toList ("ABC-" : String).toList = none
    ∧ ProductNormalizer.strip_default_code_suffix (some "ABC-") = some "ABC"
    ∧ some ("ABC" : String) ≠ some ("ABC-" : String) := by
  refine ⟨by decide, by decide, by decide⟩

/-- C1 amended (corrected): if the token `"PRO"` occurs in the value, with
first occurrence at index `i`, the result is the prefix before that
occurrence with the trailing separator characters (space, hyphen,
underscore, hash, colon, slash) stripped; if the token does not occur, the
result is the input with the trailing separator characters stripped (the
truncation is skipped but the separator strip still applies). -/
theorem C1_code_truncation_amended (s : String) :
    (∀ i : Nat,
      (s.toList.drop i).take ProductNormalizer.DEFAULT_CODE_TOKEN.toList.length
          = ProductNormalizer.DEFAULT_CODE_TOKEN.toList →
      (∀ j, j < i →
        (s.toList.drop j).take ProductNormalizer.DEFAULT_CODE_TOKEN.toList.length
            ≠ ProductNormalizer.DEFAULT_CODE_TOKEN.toList) →
      ProductNormalizer.strip_default_code_suffix (some s)
        = some (String.mk (PyStr.rstripChars ProductNormalizer.sepChars (s.toList.take i))))
    ∧ ((∀ j, (s.toList.drop j).take ProductNormalizer.DEFAULT_CODE_TOKEN.toList.length
          ≠ ProductNormalizer.DEFAULT_CODE_TOKEN.toList) →
      ProductNormalizer.strip_default_code_suffix (some s)
        = some (String.mk (PyStr.rstripChars ProductNormalizer.sepChars s.toList))) := by
  constructor
  · intro i hocc hmin
    have hfind : PyStr.findSub ProductNormalizer.DEFAULT_CODE_TOKEN.toList s.toList = some i :=
      PyStr.findSub_eq_some_of_first
        ProductNormalizer.DEFAULT_CODE_TOKEN.toList s.toList i hocc hmin
    simp only [ProductNormalizer.strip_default_code_suffix]
    rw [hfind]
  · intro hall
    cases hfind : PyStr.findSub ProductNormalizer.DEFAULT_CODE_TOKEN.toList s.toList with
    | none =>
      simp only [ProductNormalizer.strip_default_code_suffix]
      rw [hfind]
    | some a =>
      obtain ⟨h1, _⟩ := PyStr.findSub_some_first
        ProductNormalizer.DEFAULT_CODE_TOKEN.toList s.toList a hfind
      exact absurd h1 (hall a)

/-- C1 witness: `"ABC-PRO-123"` has its first `"PRO"` occurrence at index 4
and is normalized to `"ABC"` (truncate before the token, then strip the
trailing `"-"`), via `C1_code_truncation_amended`. -/
theorem C1_code_truncation_witness :
    (("ABC-PRO-123" : String).toList.drop 4).take 3 = ("PRO" : String).toList
    ∧ ProductNormalizer.strip_default_code_suffix (some "ABC-PRO-123") = some "ABC" := by
  refine ⟨by decide, ?_⟩
  have h := (C1_code_truncation_amended "ABC-PRO-123").1 4 (by decide) (by decide)
  rw [h]
  decide

/-- C7 (confirmed): the Name Formatter's transform capitalizes the first
letter of every whitespace-delimited word — at every cased position that
starts the string or follows a whitespace character, the output holds the
uppercased input character; null and empty values pass through unchanged;
every other non-empty value is replaced by its `str.title()` form, and the
specification's example `jOHN o'brien ↦ John O'Brien` computes. -/
theorem C7_name_formatter_word_capitalization :
    (∀ (s : String) (i : Nat) (h : i < s.toList.length)
        (h2 : i < (PyStr.pyTitle s).toList.length),
        PyStr.pyIsCased (s.toList.get ⟨i, h⟩) = true →
        (i = 0 ∨ PyStr.pyIsSpace
            (s.toList.get ⟨i - 1, Nat.lt_of_le_of_lt (Nat.sub_le i 1) h⟩) = true) →
        (PyStr.pyTitle s).toList.get ⟨i, h2⟩ = PyStr.pyToUpper (s.toList.get ⟨i, h⟩))
    ∧ (∀ s : String, s ≠ "" →
        NameFormated.format_to_title_case (some s) = some (PyStr.pyTitle s))
    ∧ NameFormated.format_to_title_case none = none
    ∧ NameFormated.format_to_title_case (some "") = some ""
    ∧ NameFormated.format_to_title_case (some NameFormated.exampleNameIn)
        = some NameFormated.exampleNameOut := by
  refine ⟨?_, ?_, rfl, by decide, by decide⟩
  · intro s i h h2 hc hprev
    have h2a : i < (PyStr.titleAux s.toList false).length := h2
    have e := PyStr.titleAux_get s.toList false i h h2a
    have egoal : (PyStr.pyTitle s).toList.get ⟨i, h2⟩ =
        (PyStr.titleAux s.toList false).get ⟨i, h2a⟩ := rfl
    rw [egoal, e]
    rcases hprev with h0 | hsp
    · subst h0
      rw [if_pos hc, if_neg (by simp)]
    · by_cases hi : i = 0
      · subst hi
        have hfalse := PyStr.pyIsCased_of_pyIsSpace hsp
        exact absurd hc (ne_true_of_eq_false hfalse)
      · have hfalse := PyStr.pyIsCased_of_pyIsSpace hsp
        rw [if_pos hc, if_neg (by simp only [hi, if_false]; simp only [Bool.not_eq_true]; exact hfalse)]
  · intro s hs
    simp [NameFormated.format_to_title_case, hs]

/-- C7 witness: in `jOHN o'brien` the character at index 5 (the `o` of the
second word, preceded by a space) is uppercased by the transform, via
`C7_name_formatter_word_capitalization`. -/
theorem C7_name_formatter_witness :
    PyStr.pyIsCased (NameFormated.exampleNameIn.toList.get ⟨5, by decide⟩) = true
    ∧ (PyStr.pyTitle NameFormated.exampleNameIn).toList.get ⟨5, by decide⟩
        = PyStr.pyToUpper (NameFormated.exampleNameIn.toList.get ⟨5, by decide⟩) := by
  refine ⟨by decide, ?_⟩
  exact C7_name_formatter_word_capitalization.1 NameFormated.exampleNameIn 5
    (by decide) (by decide) (by decide) (Or.inr (by decide))

/-- C5 (confirmed): a row whose configured family-indicator columns are all
absent, null, or blank is assigned `("Individual", 50)`; a row in which at
least one indicator column is present with a non-null, non-blank value is
assigned `("Family", 80)`, regardless of which indicator it is (absent
indicator columns are skipped by `rowGet` returning `none`, not an
error). -/
theorem C5_membership_assignment (row : MembershipAssigner.MRow) :
    ((∀ col ∈ MembershipAssigner.FAMILY_INDICATOR_COLUMNS,
        MembershipAssigner.rowGet row col = none
        ∨ MembershipAssigner.rowGet row col = some none
        ∨ ∃ s, MembershipAssigner.rowGet row col = some (some s)
            ∧ PyStr.isBlank s = true) →
      MembershipAssigner.assign_membership row = ("Individual", 50))
    ∧ ((∃ col ∈ MembershipAssigner.FAMILY_INDICATOR_COLUMNS,
        ∃ s, MembershipAssigner.rowGet row col = some (some s)
            ∧ PyStr.isBlank s = false) →
      MembershipAssigner.assign_membership row = ("Family", 80)) := by
  constructor
  · intro hall
    have hfalse : MembershipAssigner.has_any_family_value row
        MembershipAssigner.FAMILY_INDICATOR_COLUMNS = false := by
      rw [Bool.eq_false_iff]
      intro htrue
      unfold MembershipAssigner.has_any_family_value at htrue
      rw [List.any_eq_true] at htrue
      obtain ⟨col, hcol, hp⟩ := htrue
      rcases hall col hcol with hnone | hnan | ⟨s, hs, hb⟩
      · simp [hnone] at hp
      · simp [hnan] at hp
      · simp [hs, hb] at hp
    unfold MembershipAssigner.assign_membership
    rw [hfalse]
    rfl
  · rintro ⟨col, hcol, s, hs, hb⟩
    have htrue : MembershipAssigner.has_any_family_value row
        MembershipAssigner.FAMILY_INDICATOR_COLUMNS = true := by
      unfold MembershipAssigner.has_any_family_value
      rw [List.any_eq_true]
      refine ⟨col, hcol, ?_⟩
      simp [hs, hb]
    unfold MembershipAssigner.assign_membership
    rw [htrue]
    rfl

/-- C5 witness: a row with a non-blank `Spouse Name` gets the family
label/price; a row with no indicator column at all gets the individual
label/price, via `C5_membership_assignment`. -/
theorem C5_membership_assignment_witness :
    MembershipAssigner.assign_membership [("Spouse Name", some "Ana")] = ("Family", 80)
    ∧ MembershipAssigner.assign_membership [("Company", some "Acme")]
        = ("Individual", 50) := by
  constructor
  · exact (C5_membership_assignment [("Spouse Name", some "Ana")]).2
      ⟨"Spouse Name", by decide, "Ana", by decide, by decide⟩
  · refine (C5_membership_assignment [("Company", some "Acme")]).1 ?_
    intro col hcol
    fin_cases hcol <;> exact Or.inl (by decide)

/-- C10 (confirmed): a zero or negative configured `rows_per_file` makes
`split_csv` fail (exit 1) whatever the state of the input file — the guard
runs before the existence check and the read, so no input is read and no
output is written. -/
theorem C10_split_guard {R : Type} (k : Int) (file : Load (List R)) (hk : k ≤ 0) :
    SplitCsv.split_csv k file = none := by
  unfold SplitCsv.split_csv
  rw [if_pos hk]

/-- C10 witness: `rows_per_file = 0` fails on a perfectly valid three-row
input, via `C10_split_guard`. -/
theorem C10_split_guard_witness :
    (0 : Int) ≤ 0
    ∧ SplitCsv.split_csv 0 (Load.ok ([1, 2, 3] : List Nat)) = none :=
  ⟨le_refl 0, C10_split_guard 0 (Load.ok [1, 2, 3]) (le_refl 0)⟩

/-- Recurrence of the ceiling file count: for positive `n` and `k`,
`ceil(n / k) = ceil((n - k) / k) + 1`. -/
theorem numFiles_pos_step (n k : Nat) (hk : 0 < k) (hn : 0 < n) :
    SplitCsv.numFiles n k = SplitCsv.numFiles (n - k) k + 1 := by
  unfold SplitCsv.numFiles
  rw [show n + k - 1 = (n - 1) + k by omega, Nat.add_div_right _ hk]
  congr 1
  rcases le_or_lt k n with hle | hlt
  · congr 1
    omega
  · rw [show n - k = 0 by omega]
    rw [Nat.div_eq_of_lt (by omega), Nat.div_eq_of_lt (by omega)]

/-- The chunking loop is a partition: concatenating the produced chunks in
order reproduces the input row list. -/
theorem splitChunks_flatten {R : Type} (k : Nat) (hk : 0 < k) :
    ∀ (n : Nat) (rows : List R), rows.length = n →
      (SplitCsv.splitChunks rows k).flatten = rows := by
  intro n
  induction n using Nat.strong_induction_on with
  | _ n ih =>
    intro rows hlen
    subst hlen
    by_cases h0 : rows = []
    · subst h0
      have hz : SplitCsv.numFiles 0 k = 0 := by
        unfold SplitCsv.numFiles
        exact Nat.div_eq_of_lt (by omega)
      simp [SplitCsv.splitChunks, hz]
    · have hn : 0 < rows.length := List.length_pos.mpr h0
      have hdlen : (rows.drop k).length = rows.length - k := List.length_drop k rows
      calc (SplitCsv.splitChunks rows k).flatten
          = ((List.range (SplitCsv.numFiles (rows.length - k) k + 1)).map
              (fun i => (rows.drop (i * k)).take k)).flatten := by
            unfold SplitCsv.splitChunks
            rw [numFiles_pos_step rows.length k hk hn]
        _ = rows.take k ++ (SplitCsv.splitChunks (rows.drop k) k).flatten := by
            rw [List.range_succ_eq_map, List.map_cons, List.map_map,
              List.flatten_cons]
            congr 1
            · simp
            · unfold SplitCsv.splitChunks
              rw [hdlen]
              congr 1
              refine List.map_congr_left ?_
              intro i _
              show (rows.drop (Nat.succ i * k)).take k = ((rows.drop k).drop (i * k)).take k
              rw [List.drop_drop]
              congr 2
              rw [Nat.succ_mul]
              exact Nat.add_comm (i * k) k
        _ = rows.take k ++ rows.drop k := by
            rw [ih (rows.length - k) (by omega) (rows.drop k) hdlen]
        _ = rows := List.take_append_drop k rows

/-- C4 (confirmed): for a chunk size `K > 0`, the splitter succeeds on every
input table; it produces `ceil(N / K)` chunks whose in-order concatenation
is exactly the input row sequence (so each row lands in exactly one chunk,
in consecutive runs), and an input of zero rows produces zero chunks while
still succeeding. -/
theorem C4_splitter_partition {R : Type} (rows : List R) (k : Int) (hk : 0 < k) :
    (SplitCsv.split_csv k (Load.ok rows)).isSome = true
    ∧ ∀ chunks, SplitCsv.split_csv k (Load.ok rows) = some chunks →
        chunks.length = (rows.length + k.toNat - 1) / k.toNat
        ∧ chunks.flatten = rows
        ∧ (rows = [] → chunks = []) := by
  have hk0 : ¬ k ≤ 0 := not_le.mpr hk
  have hkn : 0 < k.toNat := by omega
  constructor
  · by_cases hz : rows.length = 0 <;> simp [SplitCsv.split_csv, hk0, hz]
  · intro chunks hs
    simp only [SplitCsv.split_csv, if_neg hk0] at hs
    by_cases hz : rows.length = 0
    · rw [if_pos hz] at hs
      cases hs
      have hrows : rows = [] := List.length_eq_zero.mp hz
      refine ⟨?_, by rw [hrows]; rfl, fun _ => rfl⟩
      rw [hz]
      simp [Nat.div_eq_of_lt (show k.toNat - 1 < k.toNat by omega)]
    · rw [if_neg hz] at hs
      cases hs
      refine ⟨?_, splitChunks_flatten k.toNat hkn rows.length rows rfl,
        fun he => absurd (by rw [he]; rfl) hz⟩
      simp [SplitCsv.splitChunks, SplitCsv.numFiles]

/-- C4 witness: five rows with chunk size 2 yield `ceil(5/2) = 3` chunks
`[1,2] [3,4] [5]` that concatenate back to the input, via
`C4_splitter_partition`. -/
theorem C4_splitter_partition_witness :
    SplitCsv.split_csv 2 (Load.ok ([1, 2, 3, 4, 5] : List Nat))
        = some [[1, 2], [3, 4], [5]]
    ∧ ([[1, 2], [3, 4], [5]] : List (List Nat)).flatten = [1, 2, 3, 4, 5]
    ∧ ([[1, 2], [3, 4], [5]] : List (List Nat)).length = (5 + 2 - 1) / 2 := by
  have h := (C4_splitter_partition ([1, 2, 3, 4, 5] : List Nat) 2 (by decide)).2
    [[1, 2], [3, 4], [5]] (by decide)
  exact ⟨by decide, h.2.1, by decide⟩

/-- C2 counterexample: an input file that parses to a table with a header
and zero data rows (the `pandas` result for a header-only CSV) does not
abort the Membership Assigner job — `process_file` succeeds (exit 0) and
writes an output table with zero data rows, contradicting the claim that
the job aborts with no output. -/
theorem C2_zero_rows_counterexample :
    MembershipAssigner.process_file (Load.ok []) = some ([], [], [])
    ∧ MembershipAssigner.process_file (Load.ok []) ≠ none := by
  refine ⟨rfl, ?_⟩
  intro h
  cases h

/-- C2 amended (corrected): only a completely empty input file (zero bytes,
no header — the case where `pandas.read_csv` raises `EmptyDataError`)
aborts the jobs with a nonzero exit and no output, as does a missing file;
a file that parses to a table with zero data rows is processed
successfully by the Membership Assigner and the Name Formatter, producing
an output file with zero data rows (exit 0). -/
theorem C2_empty_input_amended :
    MembershipAssigner.process_file Load.noColumns = none
    ∧ NameFormated.process_csv_to_xlsx Load.noColumns = none
    ∧ MembershipAssigner.process_file Load.missing = none
    ∧ NameFormated.process_csv_to_xlsx Load.missing = none
    ∧ (∀ rows : List MembershipAssigner.MRow,
        MembershipAssigner.process_file (Load.ok rows)
          = some (rows,
              rows.map (fun r => (MembershipAssigner.assign_membership r).1),
              rows.map (fun r => (MembershipAssigner.assign_membership r).2)))
    ∧ (∀ t : NameFormated.NTable,
        (NameFormated.process_csv_to_xlsx (Load.ok t)).isSome = true) :=
  ⟨rfl, rfl, rfl, rfl, fun _ => rfl, fun _ => rfl⟩

/-- C3 counterexample: the Category Analyzer aborts (returns `False`, so
the job exits 1) when its configured target column `"Company"` is absent
from the loaded table, contradicting the claim that every job skips the
rule step naming an absent column and continues to success. -/
theorem C3_missing_column_counterexample :
    AnalyzeCategories.analyze_categories (Load.ok [("Other", [some "x"])])
        AnalyzeCategories.COLUMN_TO_ANALYZE = none
    ∧ AnalyzeCategories.colGet [("Other", [some "x"])]
        AnalyzeCategories.COLUMN_TO_ANALYZE = none :=
  ⟨rfl, rfl⟩

/-- C3 amended (corrected): in the Name Formatter, the Membership
Assigner, and the Product Normalizer a configured column absent from the
table leaves the rule step naming it without effect (it is skipped with a
warning — each of the normalizer's three sub-rules included) and the job
still completes successfully on any parsed table; but the Category
Analyzer treats its absent target column as fatal: the job aborts with
exit 1. -/
theorem C3_missing_column_amended (t : NameFormated.NTable) (col : String)
    (T : AnalyzeCategories.ATable) (rows : List MembershipAssigner.MRow)
    (P : ProductNormalizer.PTable) :
    (t.any (fun p => p.1 == col) = false → NameFormated.formatColumn t col = t)
    ∧ (NameFormated.process_csv_to_xlsx (Load.ok t)).isSome = true
    ∧ (MembershipAssigner.process_file (Load.ok rows)).isSome = true
    ∧ (P.any (fun p => p.1 == ProductNormalizer.COL_PRODUCT_NAME) = false →
        ProductNormalizer.normalizeNameColumn P = P)
    ∧ (P.any (fun p => p.1 == ProductNormalizer.COL_ROOT_PATH) = false →
        ProductNormalizer.assignRootTag P = P)
    ∧ (P.any (fun p => p.1 == ProductNormalizer.COL_DEFAULT_CODE) = false →
        ProductNormalizer.stripCodeColumn P = P)
    ∧ (ProductNormalizer.process_products (Load.ok P)).isSome = true
    ∧ (AnalyzeCategories.colGet T AnalyzeCategories.COLUMN_TO_ANALYZE = none →
        AnalyzeCategories.analyze_categories (Load.ok T)
          AnalyzeCategories.COLUMN_TO_ANALYZE = none) := by
  refine ⟨?_, rfl, rfl, ?_, ?_, ?_, rfl, ?_⟩
  · intro h
    simp [NameFormated.formatColumn, h]
  · intro h
    simp [ProductNormalizer.normalizeNameColumn, h]
  · intro h
    simp [ProductNormalizer.assignRootTag, h]
  · intro h
    simp [ProductNormalizer.stripCodeColumn, h]
  · intro h
    simp [AnalyzeCategories.analyze_categories, h]

/-- C3 witness: a one-column table lacking `"Last Name"` is left unchanged
by that formatting step; the same table lacking `"default_code"` is left
unchanged by the normalizer's code-truncation step and the normalizer job
still succeeds on it; and a table lacking `"Company"` makes the analyzer
fail — all via `C3_missing_column_amended`. -/
theorem C3_missing_column_witness :
    NameFormated.formatColumn [("X", [some "a"])] "Last Name" = [("X", [some "a"])]
    ∧ ProductNormalizer.stripCodeColumn [("X", [some "a"])] = [("X", [some "a"])]
    ∧ (ProductNormalizer.process_products (Load.ok [("X", [some "a"])])).isSome = true
    ∧ AnalyzeCategories.analyze_categories (Load.ok [("Other", [some "y"])])
        AnalyzeCategories.COLUMN_TO_ANALYZE = none := by
  refine ⟨?_, ?_, ?_, ?_⟩
  · exact (C3_missing_column_amended [("X", [some "a"])] "Last Name"
      [("Other", [some "y"])] [] [("X", [some "a"])]).1 (by decide)
  · exact (C3_missing_column_amended [("X", [some "a"])] "Last Name"
      [("Other", [some "y"])] [] [("X", [some "a"])]).2.2.2.2.2.1 (by decide)
  · exact (C3_missing_column_amended [("X", [some "a"])] "Last Name"
      [("Other", [some "y"])] [] [("X", [some "a"])]).2.2.2.2.2.2.1
  · exact (C3_missing_column_amended [("X", [some "a"])] "Last Name"
      [("Other", [some "y"])] [] [("X", [some "a"])]).2.2.2.2.2.2.2 (by decide)

/-- Inserting into a descending-sorted list is a permutation of consing. -/
theorem insertDesc_perm (p : String × Nat) (l : List (String × Nat)) :
    (AnalyzeCategories.insertDesc p l).Perm (p :: l) := by
  induction l with
  | nil => exact List.Perm.refl _
  | cons q qs ih =>
    unfold AnalyzeCategories.insertDesc
    by_cases h : q.2 < p.2
    · rw [if_pos h]
    · rw [if_neg h]
      exact (ih.cons q).trans (List.Perm.swap p q qs)

/-- The descending sort modelling `Counter.most_common` is a permutation of
its input. -/
theorem sortDesc_perm (l : List (String × Nat)) :
    (AnalyzeCategories.sortDesc l).Perm l := by
  induction l with
  | nil => exact List.Perm.refl _
  | cons p ps ih =>
    unfold AnalyzeCategories.sortDesc
    exact (insertDesc_perm p (AnalyzeCategories.sortDesc ps)).trans (ih.cons p)

/-- Lemma: `most_common` is a permutation of the raw tally. -/
theorem most_common_perm (clean : List String) :
    (AnalyzeCategories.most_common clean).Perm
      (AnalyzeCategories.categoryCounts clean) :=
  sortDesc_perm _

/-- The per-category counts of the tally sum to the number of cleaned
values. -/
theorem counts_sum (clean : List String) :
    ((AnalyzeCategories.most_common clean).map (fun p => p.2)).sum
      = clean.length := by
  have h1 : ((AnalyzeCategories.most_common clean).map (fun p => p.2)).sum
      = ((AnalyzeCategories.categoryCounts clean).map (fun p => p.2)).sum :=
    ((most_common_perm clean).map _).sum_eq
  rw [h1]
  unfold AnalyzeCategories.categoryCounts
  rw [List.map_map]
  exact List.sum_map_count_dedup_eq_length clean

/-- Rounding to two decimal places moves a rational by at most `1/200`. -/
theorem round2_abs_le (q : ℚ) : |AnalyzeCategories.round2 q - q| ≤ 1 / 200 := by
  unfold AnalyzeCategories.round2
  have h := abs_sub_round (q * 100)
  have e : (((round (q * 100) : ℤ) : ℚ)) / 100 - q
      = ((((round (q * 100) : ℤ) : ℚ)) - q * 100) / 100 := by ring
  rw [e, abs_div, abs_of_pos (show (0 : ℚ) < 100 by norm_num)]
  rw [abs_sub_comm] at h
  linarith

/-- Rounding each entry of a list to two decimal places moves the sum by at
most `length / 200`. -/
theorem sum_map_round2_bound (l : List ℚ) :
    |(l.map AnalyzeCategories.round2).sum - l.sum| ≤ (l.length : ℚ) / 200 := by
  induction l with
  | nil => simp
  | cons q qs ih =>
    simp only [List.map_cons, List.sum_cons, List.length_cons]
    have e : AnalyzeCategories.round2 q + (qs.map AnalyzeCategories.round2).sum
        - (q + qs.sum)
        = (AnalyzeCategories.round2 q - q)
          + ((qs.map AnalyzeCategories.round2).sum - qs.sum) := by ring
    rw [e]
    calc |(AnalyzeCategories.round2 q - q)
          + ((qs.map AnalyzeCategories.round2).sum - qs.sum)|
        ≤ |AnalyzeCategories.round2 q - q|
          + |(qs.map AnalyzeCategories.round2).sum - qs.sum| := abs_add _ _
      _ ≤ 1 / 200 + (qs.length : ℚ) / 200 := add_le_add (round2_abs_le q) ih
      _ = ((qs.length : ℚ) + 1) / 200 := by ring
      _ = ((qs.length + 1 : ℕ) : ℚ) / 200 := by push_cast; ring

/-- The exact (unrounded) percentages of the tally sum to 100 whenever at
least one valid value exists. -/
theorem exact_pct_sum (clean : List String) (h : clean.length ≠ 0) :
    ((AnalyzeCategories.most_common clean).map
        (fun p => (p.2 : ℚ) / (clean.length : ℚ) * 100)).sum = 100 := by
  have hfun : (fun p : String × Nat => (p.2 : ℚ) / (clean.length : ℚ) * 100)
      = fun p : String × Nat =>
          ((fun q : String × Nat => (q.2 : ℚ)) p) * (100 / (clean.length : ℚ)) := by
    funext p
    ring
  rw [hfun, List.sum_map_mul_right]
  have hcast : ((AnalyzeCategories.most_common clean).map
      (fun q : String × Nat => (q.2 : ℚ))).sum = ((clean.length : ℕ) : ℚ) := by
    have hcomp : (fun q : String × Nat => (q.2 : ℚ))
        = (fun n : ℕ => (n : ℚ)) ∘ (fun q : String × Nat => q.2) := rfl
    rw [hcomp, ← List.map_map, ← Nat.cast_list_sum, counts_sum]
  rw [hcast]
  have hl : ((clean.length : ℕ) : ℚ) ≠ 0 := Nat.cast_ne_zero.mpr h
  field_simp

/-- C6 (confirmed): whenever the analyzer succeeds on a table containing
the target column, the per-category counts of the produced result sum to
the number of non-null, non-empty, non-whitespace-only values of that
column; each category's count is the number of exact (case- and
whitespace-sensitive) string matches; and the rounded percentages sum to
100 up to the rounding tolerance of `1/200` per category. -/
theorem C6_category_tally (T : AnalyzeCategories.ATable)
    (values : List (Option String)) (res : List (String × Nat × ℚ))
    (hcol : AnalyzeCategories.colGet T AnalyzeCategories.COLUMN_TO_ANALYZE
        = some values)
    (hres : AnalyzeCategories.analyze_categories (Load.ok T)
        AnalyzeCategories.COLUMN_TO_ANALYZE = some res) :
    (res.map (fun r => r.2.1)).sum = (AnalyzeCategories.cleanColumn values).length
    ∧ (∀ v cnt pct, (v, cnt, pct) ∈ res →
        cnt = (AnalyzeCategories.cleanColumn values).count v)
    ∧ |(res.map (fun r => r.2.2)).sum - 100| ≤ (res.length : ℚ) / 200 := by
  simp only [AnalyzeCategories.analyze_categories, hcol] at hres
  by_cases hz : (AnalyzeCategories.cleanColumn values).length = 0
  · rw [if_pos hz] at hres
    cases hres
  · rw [if_neg hz] at hres
    have hres2 := (Option.some.inj hres).symm
    subst hres2
    refine ⟨?_, ?_, ?_⟩
    · rw [List.map_map]
      exact counts_sum (AnalyzeCategories.cleanColumn values)
    · intro v cnt pct hmem
      obtain ⟨p, hp, hpe⟩ := List.mem_map.mp hmem
      obtain ⟨w, hw, hwe⟩ := List.mem_map.mp ((most_common_perm _).subset hp)
      have h1 : p.1 = v := congrArg (fun r => r.1) hpe
      have h2 : p.2 = cnt := congrArg (fun r => r.2.1) hpe
      have h3 : w = p.1 := congrArg (fun r => r.1) hwe
      have h4 : (AnalyzeCategories.cleanColumn values).count w = p.2 :=
        congrArg (fun r => r.2) hwe
      rw [← h2, ← h4, h3, h1]
    · rw [List.map_map, List.length_map]
      have hmap : (AnalyzeCategories.most_common (AnalyzeCategories.cleanColumn values)).map
            ((fun r : String × Nat × ℚ => r.2.2) ∘
              (fun p : String × Nat =>
                (p.1, p.2, AnalyzeCategories.round2
                  ((p.2 : ℚ) / ((AnalyzeCategories.cleanColumn values).length : ℚ) * 100))))
          = ((AnalyzeCategories.most_common (AnalyzeCategories.cleanColumn values)).map
              (fun p : String × Nat =>
                (p.2 : ℚ) / ((AnalyzeCategories.cleanColumn values).length : ℚ) * 100)).map
              AnalyzeCategories.round2 := by
        rw [List.map_map]
        rfl
      rw [hmap]
      have hbound := sum_map_round2_bound
        ((AnalyzeCategories.most_common (AnalyzeCategories.cleanColumn values)).map
          (fun p : String × Nat =>
            (p.2 : ℚ) / ((AnalyzeCategories.cleanColumn values).length : ℚ) * 100))
      rw [exact_pct_sum (AnalyzeCategories.cleanColumn values) hz] at hbound
      rw [List.length_map] at hbound
      exact hbound

/-- C6 witness: on the column `[A, A, B, null, " "]` the analyzer reports
categories `A` (2 of 3, 66.67%) and `B` (1 of 3, 33.33%); the counts sum
to the 3 valid values and the rounded percentages sum to 100 exactly, via
`C6_category_tally`. -/
theorem C6_category_tally_witness :
    AnalyzeCategories.analyze_categories
        (Load.ok [("Company", [some "A", some "A", some "B", none, some " "])])
        AnalyzeCategories.COLUMN_TO_ANALYZE
      = some [("A", 2, 6667 / 100), ("B", 1, 3333 / 100)]
    ∧ (([("A", 2, (6667 / 100 : ℚ)), ("B", 1, 3333 / 100)].map
        (fun r => r.2.1)).sum = 3)
    ∧ |([("A", 2, (6667 / 100 : ℚ)), ("B", 1, 3333 / 100)].map
        (fun r => r.2.2)).sum - 100| ≤ ((2 : ℕ) : ℚ) / 200 := by
  have step1 : AnalyzeCategories.analyze_categories
      (Load.ok [("Company", [some "A", some "A", some "B", none, some " "])])
      AnalyzeCategories.COLUMN_TO_ANALYZE
      = some ((AnalyzeCategories.most_common ["A", "A", "B"]).map
          (fun p => (p.1, p.2, AnalyzeCategories.round2 ((p.2 : ℚ) / (3 : ℚ) * 100)))) := by
    rfl
  have hmc : AnalyzeCategories.most_common ["A", "A", "B"] = [("A", 2), ("B", 1)] := by
    decide
  have heq : AnalyzeCategories.analyze_categories
      (Load.ok [("Company", [some "A", some "A", some "B", none, some " "])])
      AnalyzeCategories.COLUMN_TO_ANALYZE
      = some [("A", 2, 6667 / 100), ("B", 1, 3333 / 100)] := by
    rw [step1, hmc]
    simp only [List.map_cons, List.map_nil]
    norm_num [AnalyzeCategories.round2, round_eq]
  have h := C6_category_tally
    [("Company", [some "A", some "A", some "B", none, some " "])]
    [some "A", some "A", some "B", none, some " "]
    [("A", 2, 6667 / 100), ("B", 1, 3333 / 100)]
    (by decide) heq
  refine ⟨heq, ?_, ?_⟩
  · have h1 := h.1
    rw [show (AnalyzeCategories.cleanColumn
      [some "A", some "A", some "B", none, some " "]).length = 3 by decide] at h1
    exact h1
  · have h3 := h.2.2
    simpa using h3
